import Mathlib

/-!
Verification of the LTM (long-term memory) core against its specification.

The Python source is shallowly embedded: enums become inductive types,
dataclasses become structures, SQLite tables become lists of rows, SQL
queries become filter/sort/take pipelines, and raising code returns
`Except`.  Wall-clock times are modelled as integer seconds, Python
floats as rationals.
-/

namespace LTM

/-- `ltm.core.types.RegionType`. -/
inductive RegionType
  | AGENT
  | PROJECT
deriving DecidableEq, Repr

/-- `ltm.core.types.MemoryKind`. -/
inductive MemoryKind
  | EMOTIONAL
  | ARCHITECTURAL
  | LEARNINGS
  | ACHIEVEMENTS
deriving DecidableEq, Repr

/-- `ltm.core.types.ImpactLevel`. -/
inductive ImpactLevel
  | LOW
  | MEDIUM
  | HIGH
  | CRITICAL
deriving DecidableEq, Repr

/-- `.value` of a `RegionType` member (the enum is a `str` enum). -/
def RegionType.value : RegionType → String
  | .AGENT => "AGENT"
  | .PROJECT => "PROJECT"

/-- `.value` of a `MemoryKind` member. -/
def MemoryKind.value : MemoryKind → String
  | .EMOTIONAL => "EMOTIONAL"
  | .ARCHITECTURAL => "ARCHITECTURAL"
  | .LEARNINGS => "LEARNINGS"
  | .ACHIEVEMENTS => "ACHIEVEMENTS"

/-- `.value` of an `ImpactLevel` member. -/
def ImpactLevel.value : ImpactLevel → String
  | .LOW => "LOW"
  | .MEDIUM => "MEDIUM"
  | .HIGH => "HIGH"
  | .CRITICAL => "CRITICAL"

/-- `ltm.core.memory.Memory` (dataclass).  `datetime` fields are integer
seconds; `confidence` (a Python float) is a rational; optional fields are
`Option`.  Field defaults mirror the dataclass defaults where they are
data (the `uuid4` id default is not modelled, so `id` has no default). -/
structure Memory where
  id : String
  agent_id : String := ""
  region : RegionType := RegionType.PROJECT
  project_id : Option String := none
  kind : MemoryKind := MemoryKind.LEARNINGS
  content : String := ""
  original_content : String := ""
  impact : ImpactLevel := ImpactLevel.MEDIUM
  confidence : Rat := 1
  created_at : Int := 0
  last_accessed : Int := 0
  previous_memory_id : Option String := none
  version : Int := 1
  superseded_by : Option String := none
  signature : Option String := none
  signature_valid : Option Bool := none
  token_count : Option Nat := none
deriving DecidableEq, Repr

/-- `Memory.is_superseded`. -/
def Memory.is_superseded (m : Memory) : Bool :=
  m.superseded_by.isSome

/-- `Memory.is_low_confidence`. -/
def Memory.is_low_confidence (m : Memory) : Bool :=
  m.confidence < (7 : Rat) / 10

/-- `ltm.core.config.DecayConfig` (decay thresholds in days). -/
structure DecayConfig where
  low_days : Int := 1
  medium_days : Int := 7
  high_days : Int := 30
deriving DecidableEq, Repr

/-- Seconds in a day: `timedelta(days=d)` is modelled as `d * 86400` seconds. -/
def secondsPerDay : Int := 86400

/-- `ltm.lifecycle.decay._get_decay_thresholds`: per-impact decay threshold
from config, `none` for CRITICAL (never decays). -/
def get_decay_thresholds (cfg : DecayConfig) : ImpactLevel → Option Int
  | .LOW => some (cfg.low_days * secondsPerDay)
  | .MEDIUM => some (cfg.medium_days * secondsPerDay)
  | .HIGH => some (cfg.high_days * secondsPerDay)
  | .CRITICAL => none

/-- `MemoryDecay.should_compact(memory, now)`: CRITICAL never compacts;
otherwise compact iff `now - created_at > threshold(impact)` (strict). -/
def should_compact (cfg : DecayConfig) (memory : Memory) (now : Int) : Bool :=
  if memory.impact = ImpactLevel.CRITICAL then
    false
  else
    match get_decay_thresholds cfg memory.impact with
    | none => false
    | some threshold => now - memory.created_at > threshold

/-- The default `DecayConfig` (all dataclass defaults). -/
def defaultDecayConfig : DecayConfig := {}

/-! ### Storage engine (`ltm.storage.sqlite.MemoryStore`)

The `memories` table is a list of `Memory` rows.  SQL `WHERE` clauses become
boolean filters, `ORDER BY created_at DESC` becomes a merge sort by
descending `created_at`, and `LIMIT` becomes `take`.  Python truthiness of
the optional parameters (`if project_id:` is false for both `None` and `""`,
`if limit:` is false for both `None` and `0`) is modelled explicitly. -/

/-- Python truthiness of an `Optional[str]`. -/
def truthyStr : Option String → Bool
  | none => false
  | some s => s ≠ ""

/-- The comparator realising `ORDER BY created_at DESC`. -/
def createdDescLe (a b : Memory) : Bool :=
  b.created_at ≤ a.created_at

/-- The `WHERE` clause built by `MemoryStore.get_memories_for_agent`:
`agent_id = ?`, then optionally `region = ?`, then — when `project_id` is
truthy — `(project_id = ? OR region = 'AGENT')`, then optionally
`kind = ?`, then `superseded_by IS NULL` unless `include_superseded`. -/
def memQueryWhere (agent_id : String) (region : Option RegionType)
    (project_id : Option String) (kind : Option MemoryKind)
    (include_superseded : Bool) (m : Memory) : Bool :=
  m.agent_id == agent_id
    && (match region with
        | some r => m.region == r
        | none => true)
    && (if truthyStr project_id then
          m.project_id == project_id || m.region == RegionType.AGENT
        else true)
    && (match kind with
        | some k => m.kind == k
        | none => true)
    && (include_superseded || m.superseded_by == none)

/-- `MemoryStore.get_memories_for_agent`. -/
def get_memories_for_agent (rows : List Memory) (agent_id : String)
    (region : Option RegionType := none) (project_id : Option String := none)
    (kind : Option MemoryKind := none) (include_superseded : Bool := false)
    (limit : Option Nat := none) : List Memory :=
  let res := (rows.filter
      (memQueryWhere agent_id region project_id kind include_superseded)).mergeSort
    createdDescLe
  match limit with
  | some n => if n = 0 then res else res.take n
  | none => res

theorem createdDescLe_trans (a b c : Memory) (h1 : createdDescLe a b = true)
    (h2 : createdDescLe b c = true) : createdDescLe a c = true := by
  simp only [createdDescLe, decide_eq_true_eq] at *
  omega

theorem createdDescLe_total (a b : Memory) :
    (createdDescLe a b || createdDescLe b a) = true := by
  simp only [createdDescLe, Bool.or_eq_true, decide_eq_true_eq]
  omega

/-! ### Limits and `save_memory` (`ltm.core.limits`, `ltm.storage.sqlite`) -/

/-- `ltm.core.limits.MemoryLimits` (`None` = unlimited). -/
structure MemoryLimits where
  max_memories_per_agent : Option Nat := none
  max_memories_per_project : Option Nat := none
  max_memories_per_kind : Option Nat := none
deriving DecidableEq, Repr

/-- `ltm.core.limits.DEFAULT_LIMITS`. -/
def DEFAULT_LIMITS : MemoryLimits :=
  { max_memories_per_agent := some 10000
    max_memories_per_project := some 5000
    max_memories_per_kind := some 2000 }

/-- The payload of `ltm.core.limits.MemoryLimitExceeded`
(`limit_type`, `current`, `limit`). -/
structure MemoryLimitError where
  limit_type : String
  current : Nat
  limit : Nat
deriving DecidableEq, Repr

/-- A Python single quote, for the f-string `limit_type` texts. -/
def pyQuote (s : String) : String :=
  String.singleton (Char.ofNat 39) ++ s ++ String.singleton (Char.ofNat 39)

/-- `MemoryStore.get_memory`: point lookup by id. -/
def get_memory (rows : List Memory) (memory_id : String) : Option Memory :=
  rows.find? (fun m => m.id == memory_id)

/-- `MemoryStore.count_memories`: non-superseded memories of the agent,
restricted by the project-visibility clause when `project_id` is truthy. -/
def count_memories (rows : List Memory) (agent_id : String)
    (project_id : Option String := none) : Nat :=
  (rows.filter (fun m =>
    m.agent_id == agent_id && m.superseded_by == none
      && (if truthyStr project_id then
            m.project_id == project_id || m.region == RegionType.AGENT
          else true))).length

/-- `MemoryStore.count_memories_by_kind`. -/
def count_memories_by_kind (rows : List Memory) (agent_id : String)
    (kind : MemoryKind) (project_id : Option String := none) : Nat :=
  (rows.filter (fun m =>
    m.agent_id == agent_id && m.kind == kind && m.superseded_by == none
      && (if truthyStr project_id then
            m.project_id == project_id || m.region == RegionType.AGENT
          else true))).length

/-- The agent-total ceiling check in `MemoryStore._check_limits`. -/
def agentViolation (limits : MemoryLimits) (rows : List Memory)
    (memory : Memory) : Option MemoryLimitError :=
  match limits.max_memories_per_agent with
  | none => none
  | some l =>
    if count_memories rows memory.agent_id none ≥ l then
      some ⟨"agent total", count_memories rows memory.agent_id none, l⟩
    else none

/-- The per-project ceiling check in `MemoryStore._check_limits` (the limit
must be configured *and* `memory.project_id` truthy). -/
def projectViolation (limits : MemoryLimits) (rows : List Memory)
    (memory : Memory) : Option MemoryLimitError :=
  match limits.max_memories_per_project with
  | none => none
  | some l =>
    if truthyStr memory.project_id then
      if count_memories rows memory.agent_id memory.project_id ≥ l then
        some ⟨"project " ++ pyQuote (memory.project_id.getD ""),
          count_memories rows memory.agent_id memory.project_id, l⟩
      else none
    else none

/-- The per-kind ceiling check in `MemoryStore._check_limits`. -/
def kindViolation (limits : MemoryLimits) (rows : List Memory)
    (memory : Memory) : Option MemoryLimitError :=
  match limits.max_memories_per_kind with
  | none => none
  | some l =>
    if count_memories_by_kind rows memory.agent_id memory.kind
        memory.project_id ≥ l then
      some ⟨"kind " ++ pyQuote memory.kind.value,
        count_memories_by_kind rows memory.agent_id memory.kind
          memory.project_id, l⟩
    else none

/-- `MemoryStore._check_limits`: no check for an existing id; otherwise the
agent-total, per-project and per-kind ceilings are checked in that order. -/
def check_limits (limits : MemoryLimits) (rows : List Memory)
    (memory : Memory) : Option MemoryLimitError :=
  if (get_memory rows memory.id).isSome then none
  else
    match agentViolation limits rows memory with
    | some e => some e
    | none =>
      match projectViolation limits rows memory with
      | some e => some e
      | none => kindViolation limits rows memory

/-- The `ON CONFLICT(id) DO UPDATE` column set of `save_memory`: only
content, confidence, last_accessed, version, superseded_by, signature and
token_count are overwritten; the identity columns keep their stored
values. -/
def upsertUpdate (stored memory : Memory) : Memory :=
  { stored with
    content := memory.content,
    confidence := memory.confidence,
    last_accessed := memory.last_accessed,
    version := memory.version,
    superseded_by := memory.superseded_by,
    signature := memory.signature,
    token_count := memory.token_count }

/-- The table after `save_memory`'s INSERT/UPDATE (the transient
`signature_valid` flag is not a column, so an inserted row carries none). -/
def upsertRows (rows : List Memory) (memory : Memory) : List Memory :=
  if rows.any (fun r => r.id == memory.id) then
    rows.map (fun r => if r.id == memory.id then upsertUpdate r memory else r)
  else
    rows ++ [{ memory with signature_valid := none }]

/-- `MemoryStore.save_memory`: check limits, then upsert.  A limit
violation raises, i.e. returns `Except.error` and no new table. -/
def save_memory (limits : MemoryLimits) (rows : List Memory)
    (memory : Memory) : Except MemoryLimitError (List Memory) :=
  match check_limits limits rows memory with
  | some e => Except.error e
  | none => Except.ok (upsertRows rows memory)

theorem agentViolation_isSome_iff (limits : MemoryLimits) (rows : List Memory)
    (memory : Memory) :
    (agentViolation limits rows memory).isSome = true ↔
      ∃ l, limits.max_memories_per_agent = some l ∧
        count_memories rows memory.agent_id none ≥ l := by
  cases h : limits.max_memories_per_agent with
  | none => simp [agentViolation, h]
  | some l =>
    simp only [agentViolation, h]
    split_ifs with hge <;> simp_all

theorem projectViolation_isSome_iff (limits : MemoryLimits)
    (rows : List Memory) (memory : Memory) :
    (projectViolation limits rows memory).isSome = true ↔
      ∃ l, limits.max_memories_per_project = some l ∧
        truthyStr memory.project_id = true ∧
        count_memories rows memory.agent_id memory.project_id ≥ l := by
  cases h : limits.max_memories_per_project with
  | none => simp [projectViolation, h]
  | some l =>
    simp only [projectViolation, h]
    split_ifs with htr hge <;> simp_all

theorem kindViolation_isSome_iff (limits : MemoryLimits) (rows : List Memory)
    (memory : Memory) :
    (kindViolation limits rows memory).isSome = true ↔
      ∃ l, limits.max_memories_per_kind = some l ∧
        count_memories_by_kind rows memory.agent_id memory.kind
          memory.project_id ≥ l := by
  cases h : limits.max_memories_per_kind with
  | none => simp [kindViolation, h]
  | some l =>
    simp only [kindViolation, h]
    split_ifs with hge <;> simp_all

theorem agentViolation_eq (limits : MemoryLimits) (rows : List Memory)
    (memory : Memory) (e : MemoryLimitError)
    (h : agentViolation limits rows memory = some e) :
    e.limit_type = "agent total" ∧
      e.current = count_memories rows memory.agent_id none ∧
      limits.max_memories_per_agent = some e.limit ∧ e.current ≥ e.limit := by
  cases hm : limits.max_memories_per_agent with
  | none => simp [agentViolation, hm] at h
  | some l =>
    simp only [agentViolation, hm] at h
    split_ifs at h with hge
    cases Option.some.inj h
    exact ⟨rfl, rfl, rfl, hge⟩

theorem projectViolation_eq (limits : MemoryLimits) (rows : List Memory)
    (memory : Memory) (e : MemoryLimitError)
    (h : projectViolation limits rows memory = some e) :
    e.limit_type = "project " ++ pyQuote (memory.project_id.getD "") ∧
      e.current = count_memories rows memory.agent_id memory.project_id ∧
      limits.max_memories_per_project = some e.limit ∧
      e.current ≥ e.limit := by
  cases hm : limits.max_memories_per_project with
  | none => simp [projectViolation, hm] at h
  | some l =>
    simp only [projectViolation, hm] at h
    split_ifs at h with htr hge
    cases Option.some.inj h
    exact ⟨rfl, rfl, rfl, hge⟩

theorem kindViolation_eq (limits : MemoryLimits) (rows : List Memory)
    (memory : Memory) (e : MemoryLimitError)
    (h : kindViolation limits rows memory = some e) :
    e.limit_type = "kind " ++ pyQuote memory.kind.value ∧
      e.current = count_memories_by_kind rows memory.agent_id memory.kind
        memory.project_id ∧
      limits.max_memories_per_kind = some e.limit ∧ e.current ≥ e.limit := by
  cases hm : limits.max_memories_per_kind with
  | none => simp [kindViolation, hm] at h
  | some l =>
    simp only [kindViolation, hm] at h
    split_ifs at h with hge
    cases Option.some.inj h
    exact ⟨rfl, rfl, rfl, hge⟩

theorem save_memory_error_check (limits : MemoryLimits) (rows : List Memory)
    (memory : Memory) (e : MemoryLimitError)
    (he : save_memory limits rows memory = Except.error e) :
    check_limits limits rows memory = some e := by
  cases hc : check_limits limits rows memory with
  | some e2 =>
    simp only [save_memory, hc] at he
    injection he with h
    rw [h]
  | none =>
    simp only [save_memory, hc] at he
    cases he

/-! ### Search and SQL `LIKE` (`escape_like_pattern`, `search_memories`)

SQLite's `LIKE` with `ESCAPE '\'` is embedded over character lists: `%`
matches any sequence, `_` any single character, a backslash escapes the
following character, and comparison is ASCII-case-insensitive (SQLite's
default `like()` for ASCII). -/

/-- ASCII lowercasing, as SQLite's default `LIKE` comparison folds case. -/
def lowerChar (c : Char) : Char :=
  if 'A' ≤ c ∧ c ≤ 'Z' then Char.ofNat (c.toNat + 32) else c

/-- One `str.replace(t, r)` pass over single-character targets. -/
def replaceChar (t : Char) (r : List Char) : List Char → List Char
  | [] => []
  | c :: rest => (if c = t then r else [c]) ++ replaceChar t r rest

/-- `ltm.storage.sqlite.escape_like_pattern`: escape `\`, then `%`,
then `_`. -/
def escape_like_pattern (s : List Char) : List Char :=
  replaceChar '_' ['\\', '_']
    (replaceChar '%' ['\\', '%']
      (replaceChar '\\' ['\\', '\\'] s))

/-- The per-character effect of `escape_like_pattern`. -/
def escChar (c : Char) : List Char :=
  if c = '\\' ∨ c = '%' ∨ c = '_' then ['\\', c] else [c]

/-- Does `f` accept some suffix of the string?  (The search a `%` wildcard
performs.) -/
def anySuffix (f : List Char → Bool) : List Char → Bool
  | [] => f []
  | c :: s => f (c :: s) || anySuffix f s

/-- A lexed `LIKE`-pattern element: `%`, `_`, a literal character (possibly
escaped), or a dangling trailing escape (which can match nothing). -/
inductive LikeTok
  | pct
  | uscore
  | lit (c : Char)
  | bad
deriving DecidableEq, Repr

/-- Lex a `LIKE` pattern under `ESCAPE '\'`. -/
def likeLex : List Char → List LikeTok
  | [] => []
  | '\\' :: [] => [.bad]
  | '\\' :: c :: rest => .lit c :: likeLex rest
  | '%' :: rest => .pct :: likeLex rest
  | '_' :: rest => .uscore :: likeLex rest
  | c :: rest => .lit c :: likeLex rest

/-- Match a lexed `LIKE` pattern (ASCII case folded, as SQLite's default
`like()` compares). -/
def likeMatchT : List LikeTok → List Char → Bool
  | [] => fun s => s.isEmpty
  | .pct :: ts => fun s => anySuffix (likeMatchT ts) s
  | .uscore :: ts => fun s =>
    match s with
    | [] => false
    | _ :: s2 => likeMatchT ts s2
  | .bad :: _ => fun _ => false
  | .lit c :: ts => fun s =>
    match s with
    | [] => false
    | d :: s2 => (lowerChar d == lowerChar c) && likeMatchT ts s2

/-- SQLite `LIKE ... ESCAPE '\'` pattern matching. -/
def likeMatch (p s : List Char) : Bool :=
  likeMatchT (likeLex p) s

/-- Case-insensitive `startsWith`. -/
def startsWithCI : List Char → List Char → Bool
  | [], _ => true
  | _ :: _, [] => false
  | q :: qs, c :: s => (lowerChar c == lowerChar q) && startsWithCI qs s

/-- Case-insensitive substring test. -/
def substrCI (q : List Char) : List Char → Bool
  | [] => startsWithCI q []
  | c :: s => startsWithCI q (c :: s) || substrCI q s

/-- The spec's notion for C8: `s` contains `q` as a literal,
case-insensitive substring. -/
def ContainsCI (q s : List Char) : Prop :=
  ∃ s1 s2 s3, s = s1 ++ s2 ++ s3 ∧ s2.map lowerChar = q.map lowerChar

/-- The `WHERE` clause of `MemoryStore.search_memories`. -/
def searchWhere (agent_id : String) (q : String) (project_id : Option String)
    (m : Memory) : Bool :=
  m.agent_id == agent_id
    && (likeMatch ('%' :: (escape_like_pattern q.data ++ ['%'])) m.content.data
        || likeMatch ('%' :: (escape_like_pattern q.data ++ ['%']))
            m.original_content.data)
    && m.superseded_by == none
    && (if truthyStr project_id then
          m.project_id == project_id || m.region == RegionType.AGENT
        else true)

/-- `MemoryStore.search_memories` (ordered `created_at DESC`, `LIMIT`
always applied, default 10). -/
def search_memories (rows : List Memory) (agent_id : String) (q : String)
    (project_id : Option String := none) (limit : Nat := 10) : List Memory :=
  ((rows.filter (searchWhere agent_id q project_id)).mergeSort
    createdDescLe).take limit

theorem replaceChar_eq_flatMap (t : Char) (r : List Char) (s : List Char) :
    replaceChar t r s = s.flatMap (fun c => if c = t then r else [c]) := by
  induction s with
  | nil => rfl
  | cons c rest ih => simp [replaceChar, ih]

theorem escape_eq_flatMap (s : List Char) :
    escape_like_pattern s = s.flatMap escChar := by
  unfold escape_like_pattern
  rw [replaceChar_eq_flatMap, replaceChar_eq_flatMap, replaceChar_eq_flatMap,
    List.flatMap_assoc, List.flatMap_assoc]
  refine List.flatMap_congr ?_
  intro c _
  by_cases h1 : c = '\\'
  · subst h1; rfl
  · by_cases h2 : c = '%'
    · subst h2; rfl
    · by_cases h3 : c = '_'
      · subst h3; rfl
      · simp [escChar, h1, h2, h3]

theorem likeLex_escChar (c : Char) (rest : List Char) :
    likeLex (escChar c ++ rest) = LikeTok.lit c :: likeLex rest := by
  by_cases h : c = '\\' ∨ c = '%' ∨ c = '_'
  · have hp : escChar c = ['\\', c] := by simp [escChar, h]
    rw [hp]
    rfl
  · push_neg at h
    obtain ⟨hA, hB, hC⟩ := h
    have hp : escChar c = [c] := by simp [escChar, hA, hB, hC]
    rw [hp]
    cases rest with
    | nil => simp [likeLex, hA, hB, hC]
    | cons d rest2 => simp [likeLex, hA, hB, hC]

theorem likeLex_escList (q rest : List Char) :
    likeLex (q.flatMap escChar ++ rest)
      = q.map LikeTok.lit ++ likeLex rest := by
  induction q with
  | nil => simp
  | cons c q' ih =>
    rw [List.flatMap_cons, List.append_assoc, likeLex_escChar, ih]
    rfl

theorem likeMatchT_lit_pct (q : List Char) : ∀ s : List Char,
    likeMatchT (q.map LikeTok.lit ++ [LikeTok.pct]) s = startsWithCI q s := by
  induction q with
  | nil =>
    have hall : ∀ s, anySuffix (likeMatchT []) s = true := by
      intro s
      induction s with
      | nil => rfl
      | cons c s ih =>
        rw [anySuffix, ih]
        simp
    intro s
    rw [List.map_nil, List.nil_append, likeMatchT]
    exact hall s
  | cons c q' ih =>
    intro s
    rw [List.map_cons, List.cons_append, likeMatchT]
    cases s with
    | nil => rfl
    | cons d s2 =>
      dsimp only
      rw [ih s2]
      rfl

theorem likeMatchT_pct_lit_pct (q : List Char) (s : List Char) :
    likeMatchT (LikeTok.pct :: (q.map LikeTok.lit ++ [LikeTok.pct])) s
      = substrCI q s := by
  have h : ∀ t, anySuffix (likeMatchT (q.map LikeTok.lit ++ [LikeTok.pct])) t
      = substrCI q t := by
    intro t
    induction t with
    | nil =>
      rw [anySuffix, likeMatchT_lit_pct]
      rfl
    | cons c t ih =>
      rw [anySuffix, ih, likeMatchT_lit_pct]
      rfl
  rw [likeMatchT]
  exact h s

/-- The search pattern the code builds — `%` + escaped query + `%` under
`ESCAPE '\'` — matches a string exactly when the raw query occurs in it as
a literal, case-insensitively compared substring. -/
theorem like_escape_substr (q s : List Char) :
    likeMatch ('%' :: (escape_like_pattern q ++ ['%'])) s = substrCI q s := by
  rw [escape_eq_flatMap]
  unfold likeMatch
  rw [show likeLex ('%' :: (q.flatMap escChar ++ ['%']))
      = LikeTok.pct :: likeLex (q.flatMap escChar ++ ['%']) from by
    rw [likeLex], likeLex_escList]
  rw [show likeLex ['%'] = [LikeTok.pct] from rfl]
  exact likeMatchT_pct_lit_pct q s

theorem startsWithCI_iff (q : List Char) : ∀ s : List Char,
    startsWithCI q s = true ↔
      ∃ u v, s = u ++ v ∧ u.map lowerChar = q.map lowerChar := by
  induction q with
  | nil =>
    intro s
    constructor
    · intro _
      exact ⟨[], s, rfl, rfl⟩
    · intro _
      rfl
  | cons c q' ih =>
    intro s
    cases s with
    | nil =>
      constructor
      · intro h
        exact Bool.noConfusion h
      · rintro ⟨u, v, heq, hmap⟩
        obtain ⟨hu, hv⟩ := List.append_eq_nil.mp heq.symm
        rw [hu] at hmap
        simp at hmap
    | cons d s2 =>
      rw [show startsWithCI (c :: q') (d :: s2)
          = ((lowerChar d == lowerChar c) && startsWithCI q' s2) from rfl,
        Bool.and_eq_true]
      constructor
      · rintro ⟨h1, h2⟩
        obtain ⟨u, v, hs, hm⟩ := (ih s2).mp h2
        refine ⟨d :: u, v, by rw [hs]; rfl, ?_⟩
        simp [hm, beq_iff_eq.mp h1]
      · rintro ⟨u, v, hs, hm⟩
        cases u with
        | nil => simp at hm
        | cons e u' =>
          rw [List.cons_append] at hs
          injection hs with hde hs2
          rw [List.map_cons] at hm
          injection hm with hm1 hm2
          constructor
          · rw [beq_iff_eq, hde]
            exact hm1
          · exact (ih s2).mpr ⟨u', v, hs2, hm2⟩

theorem substrCI_iff (q : List Char) (s : List Char) :
    substrCI q s = true ↔ ContainsCI q s := by
  unfold ContainsCI
  induction s with
  | nil =>
    rw [show substrCI q [] = startsWithCI q [] from rfl, startsWithCI_iff]
    constructor
    · rintro ⟨u, v, heq, hm⟩
      exact ⟨[], u, v, by simp [heq], hm⟩
    · rintro ⟨s1, u, v, heq, hm⟩
      obtain ⟨h1, h2⟩ := List.append_eq_nil.mp heq.symm
      obtain ⟨h3, h4⟩ := List.append_eq_nil.mp h1
      exact ⟨u, v, by rw [h4, h2]; rfl, hm⟩
  | cons c s' ih =>
    rw [show substrCI q (c :: s')
        = (startsWithCI q (c :: s') || substrCI q s') from rfl,
      Bool.or_eq_true, startsWithCI_iff, ih]
    constructor
    · rintro (⟨u, v, hs, hm⟩ | ⟨s1, u, v, hs, hm⟩)
      · exact ⟨[], u, v, by simp [hs], hm⟩
      · exact ⟨c :: s1, u, v, by simp [hs], hm⟩
    · rintro ⟨s1, u, v, hs, hm⟩
      cases s1 with
      | nil =>
        left
        exact ⟨u, v, by simpa using hs, hm⟩
      | cons e s1' =>
        right
        simp only [List.cons_append] at hs
        injection hs with h1 h2
        exact ⟨s1', u, v, by simpa using h2, hm⟩

/-! ### Agents and projects -/

/-- `ltm.core.agent.Agent` (fields the core uses). -/
structure Agent where
  id : String
  name : String := ""
  definition_path : Option String := none
  signing_key : Option String := none
deriving DecidableEq, Repr

/-- `ltm.core.agent.Project`.  `created_at` is the ISO string column value
(`None` means `save_project` fills in the current time). -/
structure Project where
  id : String
  name : String := ""
  path : String := ""
  created_at : Option String := none
deriving DecidableEq, Repr

/-! ### Signing subsystem (`ltm.core.signing`)

`hmac.new(key, payload, sha256).hexdigest()` is an external primitive; it is
modelled as an explicit function parameter `hmacFn : key → payload → digest`.
Everything the code does around it (payload construction, comparison,
signature-presence checks) is embedded exactly; statements that need the
hash to separate two distinct payloads carry that separation as an explicit
hypothesis. -/

/-- `"|".join(parts)`. -/
def joinBar : List String → String
  | [] => ""
  | [s] => s
  | s :: rest => s ++ "|" ++ joinBar rest

/-- `ltm.core.signing._get_signing_payload`: `"|".join` of the immutable
fields.  (`memory.created_at` is a `datetime`, which is always truthy in
Python, so the `if memory.created_at else ""` guard always takes the
isoformat branch; the isoformat rendering of the integer timestamp is
`toString`.) -/
def get_signing_payload (memory : Memory) : String :=
  joinBar
    [memory.id,
     memory.agent_id,
     memory.region.value,
     memory.project_id.getD "",
     memory.kind.value,
     memory.original_content,
     memory.impact.value,
     toString memory.created_at]

/-- `ltm.core.signing.sign_memory`. -/
def sign_memory (hmacFn : String → String → String) (memory : Memory)
    (signing_key : String) : String :=
  hmacFn signing_key (get_signing_payload memory)

/-- `ltm.core.signing.verify_signature`: false when the signature is absent
or empty (`if not memory.signature`), otherwise constant-time equality with
the recomputed signature. -/
def verify_signature (hmacFn : String → String → String) (memory : Memory)
    (signing_key : String) : Bool :=
  match memory.signature with
  | none => false
  | some sig => if sig = "" then false else sig == sign_memory hmacFn memory signing_key

theorem joinBar8_cancel1 (x y p2 p3 p4 p5 p6 p7 p8 : String)
    (h : joinBar [x, p2, p3, p4, p5, p6, p7, p8]
       = joinBar [y, p2, p3, p4, p5, p6, p7, p8]) : x = y := by
  have h' := congrArg String.data h
  simp only [joinBar, String.data_append, List.append_assoc] at h'
  exact String.ext (List.append_cancel_right h')

theorem joinBar8_cancel5 (p1 p2 p3 p4 x y p6 p7 p8 : String)
    (h : joinBar [p1, p2, p3, p4, x, p6, p7, p8]
       = joinBar [p1, p2, p3, p4, y, p6, p7, p8]) : x = y := by
  have h' := congrArg String.data h
  simp only [joinBar, String.data_append, List.append_assoc] at h'
  have h1 := List.append_cancel_left h'
  have h2 := List.append_cancel_left h1
  have h3 := List.append_cancel_left h2
  have h4 := List.append_cancel_left h3
  have h5 := List.append_cancel_left h4
  have h6 := List.append_cancel_left h5
  have h7 := List.append_cancel_left h6
  have h8 := List.append_cancel_left h7
  exact String.ext (List.append_cancel_right h8)

theorem joinBar8_cancel6 (p1 p2 p3 p4 p5 x y p7 p8 : String)
    (h : joinBar [p1, p2, p3, p4, p5, x, p7, p8]
       = joinBar [p1, p2, p3, p4, p5, y, p7, p8]) : x = y := by
  have h' := congrArg String.data h
  simp only [joinBar, String.data_append, List.append_assoc] at h'
  have h1 := List.append_cancel_left h'
  have h2 := List.append_cancel_left h1
  have h3 := List.append_cancel_left h2
  have h4 := List.append_cancel_left h3
  have h5 := List.append_cancel_left h4
  have h6 := List.append_cancel_left h5
  have h7 := List.append_cancel_left h6
  have h8 := List.append_cancel_left h7
  have h9 := List.append_cancel_left h8
  have h10 := List.append_cancel_left h9
  exact String.ext (List.append_cancel_right h10)

theorem joinBar8_cancel7 (p1 p2 p3 p4 p5 p6 x y p8 : String)
    (h : joinBar [p1, p2, p3, p4, p5, p6, x, p8]
       = joinBar [p1, p2, p3, p4, p5, p6, y, p8]) : x = y := by
  have h' := congrArg String.data h
  simp only [joinBar, String.data_append, List.append_assoc] at h'
  have h1 := List.append_cancel_left h'
  have h2 := List.append_cancel_left h1
  have h3 := List.append_cancel_left h2
  have h4 := List.append_cancel_left h3
  have h5 := List.append_cancel_left h4
  have h6 := List.append_cancel_left h5
  have h7 := List.append_cancel_left h6
  have h8 := List.append_cancel_left h7
  have h9 := List.append_cancel_left h8
  have h10 := List.append_cancel_left h9
  have h11 := List.append_cancel_left h10
  have h12 := List.append_cancel_left h11
  exact String.ext (List.append_cancel_right h12)

theorem kind_value_injective (a b : MemoryKind) (h : a.value = b.value) :
    a = b := by
  cases a <;> cases b <;> revert h <;> decide

theorem impact_value_injective (a b : ImpactLevel) (h : a.value = b.value) :
    a = b := by
  cases a <;> cases b <;> revert h <;> decide

/-- A memory with a non-empty signature that equals the recomputed HMAC
verifies. -/
theorem verify_true_of_hash_eq (hmacFn : String → String → String)
    (m' : Memory) (k sig : String) (hsig : m'.signature = some sig)
    (hne : sig ≠ "") (heq : sig = hmacFn k (get_signing_payload m')) :
    verify_signature hmacFn m' k = true := by
  unfold verify_signature
  simp only [hsig, if_neg hne, sign_memory]
  simp [← heq]

/-- A memory whose stored signature differs from the recomputed HMAC does
not verify. -/
theorem verify_false_of_hash_ne (hmacFn : String → String → String)
    (m' : Memory) (k sig : String) (hsig : m'.signature = some sig)
    (hne : sig ≠ hmacFn k (get_signing_payload m')) :
    verify_signature hmacFn m' k = false := by
  unfold verify_signature
  by_cases hs : sig = ""
  · simp [hsig, hs]
  · simp only [hsig, if_neg hs, sign_memory]
    exact beq_eq_false_iff_ne.mpr hne

/-- `ltm.core.signing.should_sign`. -/
def should_sign (agent : Agent) : Bool :=
  match agent.signing_key with
  | none => false
  | some k => k ≠ ""

/-- `ltm.core.signing.should_verify`. -/
def should_verify (memory : Memory) (agent : Agent) : Bool :=
  should_sign agent && memory.signature.isSome

/-! ### Injection engine (`ltm.lifecycle.injection`) -/

/-- `ltm.lifecycle.injection.estimate_tokens`: `len(text) // 4`. -/
def estimate_tokens (text : String) : Nat :=
  text.length / 4

/-- The `kind_short` table in `Memory.to_dsl`. -/
def kind_short : MemoryKind → String
  | .EMOTIONAL => "EMOT"
  | .ARCHITECTURAL => "ARCH"
  | .LEARNINGS => "LEARN"
  | .ACHIEVEMENTS => "ACHV"

/-- The `impact_short` table in `Memory.to_dsl`. -/
def impact_short : ImpactLevel → String
  | .LOW => "LOW"
  | .MEDIUM => "MED"
  | .HIGH => "HIGH"
  | .CRITICAL => "CRIT"

/-- `Memory.to_dsl`: `{untrusted}~{KIND}:{IMPACT}{confidence}| {content}`. -/
def Memory.to_dsl (m : Memory) : String :=
  let confidence_marker := if m.is_low_confidence then "?" else ""
  let untrusted_marker := if m.signature_valid == some false then "⚠" else ""
  untrusted_marker ++ "~" ++ kind_short m.kind ++ ":" ++ impact_short m.impact
    ++ confidence_marker ++ "| " ++ m.content

/-- `ltm.lifecycle.injection.get_memory_tokens`: cached `token_count` when
present, else the 4-chars-per-token estimate of the DSL line. -/
def get_memory_tokens (memory : Memory) : Nat :=
  match memory.token_count with
  | some n => n
  | none => estimate_tokens (memory.to_dsl ++ "\n")

/-- `ltm.core.memory.MemoryBlock`. -/
structure MemoryBlock where
  agent_name : String
  project_name : Option String
  memories : List Memory
deriving Repr

/-- `MemoryBlock.to_dsl`: header, one DSL line per non-superseded memory,
footer; empty string for an empty memory list. -/
def MemoryBlock.to_dsl (b : MemoryBlock) : String :=
  if b.memories.isEmpty then ""
  else
    let header := "[LTM:" ++ b.agent_name
      ++ (if truthyStr b.project_name then "@" ++ b.project_name.getD "" else "")
      ++ "]"
    let lines := [header]
      ++ (b.memories.filter (fun m => !m.is_superseded)).map Memory.to_dsl
      ++ ["[/LTM]"]
    String.intercalate "\n" lines

/-- The `impact_order` dict in `MemoryInjector._prioritize_memories`
(`.get(value, 99)` never misses: the enum is closed). -/
def impact_order : ImpactLevel → Nat
  | .CRITICAL => 0
  | .HIGH => 1
  | .MEDIUM => 2
  | .LOW => 3

/-- The `kind_order` dict in `MemoryInjector._prioritize_memories`. -/
def kind_order : MemoryKind → Nat
  | .EMOTIONAL => 0
  | .ARCHITECTURAL => 1
  | .LEARNINGS => 2
  | .ACHIEVEMENTS => 3

/-- `sort_key(m)`: `(impact_order[impact], kind_order[kind], -timestamp)`. -/
def sort_key (m : Memory) : Nat × Nat × Int :=
  (impact_order m.impact, kind_order m.kind, -m.created_at)

/-- Lexicographic `≤` on sort keys — the order Python's tuple-keyed stable
`sorted` sorts by in `_prioritize_memories`. -/
def priorityLe (a b : Memory) : Bool :=
  if (sort_key a).1 ≠ (sort_key b).1 then (sort_key a).1 < (sort_key b).1
  else if (sort_key a).2.1 ≠ (sort_key b).2.1 then (sort_key a).2.1 < (sort_key b).2.1
  else (sort_key a).2.2 ≤ (sort_key b).2.2

/-- `MemoryInjector._prioritize_memories`: stable sort by `sort_key`. -/
def prioritize_memories (memories : List Memory) : List Memory :=
  memories.mergeSort priorityLe

theorem priorityLe_iff (a b : Memory) :
    priorityLe a b = true ↔
      impact_order a.impact < impact_order b.impact ∨
      (impact_order a.impact = impact_order b.impact ∧
        (kind_order a.kind < kind_order b.kind ∨
          (kind_order a.kind = kind_order b.kind ∧ b.created_at ≤ a.created_at))) := by
  by_cases h1 : impact_order a.impact = impact_order b.impact
  · by_cases h2 : kind_order a.kind = kind_order b.kind
    · simp only [priorityLe, sort_key, h1, h2]
      simp
    · simp only [priorityLe, sort_key, h1, h2]
      simp [h2]
  · simp only [priorityLe, sort_key]
    simp [h1]

theorem priorityLe_trans (a b c : Memory) (h1 : priorityLe a b = true)
    (h2 : priorityLe b c = true) : priorityLe a c = true := by
  rw [priorityLe_iff] at *
  omega

theorem priorityLe_total (a b : Memory) :
    (priorityLe a b || priorityLe b a) = true := by
  rw [Bool.or_eq_true, priorityLe_iff, priorityLe_iff]
  omega

theorem impact_order_eq_zero_iff (i : ImpactLevel) :
    impact_order i = 0 ↔ i = ImpactLevel.CRITICAL := by
  cases i <;> simp [impact_order]

/-- The candidate list gathered at the top of `MemoryInjector.inject`:
active AGENT-region memories, then (when a project is given) active
PROJECT-region memories of that project. -/
def injectCandidates (store : List Memory) (agent : Agent)
    (project : Option Project) : List Memory :=
  get_memories_for_agent store agent.id (some RegionType.AGENT) none none false none
    ++ (match project with
        | some p =>
          get_memories_for_agent store agent.id (some RegionType.PROJECT)
            (some p.id) none false none
        | none => [])

/-- The signature-verification step inside `inject`'s packing loop: when the
agent signs and the memory is signed, set the transient `signature_valid`
flag from `verify_signature`. -/
def verifyAndMark (hmacFn : String → String → String) (agent : Agent)
    (m : Memory) : Memory :=
  if should_verify m agent then
    if verify_signature hmacFn m (agent.signing_key.getD "") then
      { m with signature_valid := some true }
    else
      { m with signature_valid := some false }
  else m

/-- The `for memory in memories` packing loop of `inject`: verify/mark, then
include the memory iff adding its token cost stays within budget, else
`break` (dropping all remaining candidates).  The `memory.touch()` /
`save_memory` persistence of `last_accessed` is a store side effect that no
claim consults and is not modelled. -/
def packMemories (hmacFn : String → String → String) (agent : Agent)
    (budget : Nat) : Nat → List Memory → List Memory
  | _, [] => []
  | current_tokens, m :: rest =>
    let m' := verifyAndMark hmacFn agent m
    let memory_tokens := get_memory_tokens m'
    if current_tokens + memory_tokens ≤ budget then
      m' :: packMemories hmacFn agent budget (current_tokens + memory_tokens) rest
    else []

/-- The header/footer overhead `inject` starts its running token count at:
`estimate_tokens(f"[LTM:{agent.name}]\n[/LTM]")`. -/
def injectOverhead (agent : Agent) : Nat :=
  estimate_tokens ("[LTM:" ++ agent.name ++ "]\n[/LTM]")

/-- The prioritized candidate list inside `inject`. -/
def injectPrior (store : List Memory) (agent : Agent)
    (project : Option Project) : List Memory :=
  prioritize_memories (injectCandidates store agent project)

/-- The list of memories `inject`'s packing loop includes. -/
def injectPacked (hmacFn : String → String → String) (store : List Memory)
    (budget : Nat) (agent : Agent) (project : Option Project) : List Memory :=
  packMemories hmacFn agent budget (injectOverhead agent)
    (injectPrior store agent project)

/-- `MemoryInjector.inject`. -/
def inject (hmacFn : String → String → String) (store : List Memory)
    (budget : Nat) (agent : Agent) (project : Option Project) : String :=
  let memories := injectCandidates store agent project
  if memories.isEmpty then ""
  else
    let included := injectPacked hmacFn store budget agent project
    if included.isEmpty then ""
    else
      MemoryBlock.to_dsl
        { agent_name := agent.name
          project_name := (match project with
            | some p => some p.name
            | none => none)
          memories := included }

theorem sum_take_le (l : List Nat) (i : Nat) : (l.take i).sum ≤ l.sum := by
  induction l generalizing i with
  | nil => simp
  | cons x xs ih =>
    cases i with
    | zero => simp
    | succ n =>
      simp only [List.take_succ_cons, List.sum_cons]
      exact Nat.add_le_add_left (ih n) x

theorem verifyAndMark_token_count (hmacFn : String → String → String)
    (agent : Agent) (m : Memory) :
    (verifyAndMark hmacFn agent m).token_count = m.token_count := by
  unfold verifyAndMark
  split
  · split <;> rfl
  · rfl

/-- Anything `get_memories_for_agent` returns is a row of the store. -/
theorem mem_of_get_memories {rows : List Memory} {a : String}
    {r : Option RegionType} {p : Option String} {kd : Option MemoryKind}
    {inc : Bool} {lim : Option Nat} {m : Memory}
    (h : m ∈ get_memories_for_agent rows a r p kd inc lim) : m ∈ rows := by
  unfold get_memories_for_agent at h
  have hres : ∀ m', m' ∈ (rows.filter (memQueryWhere a r p kd inc)).mergeSort
      createdDescLe → m' ∈ rows := by
    intro m' hm'
    exact (List.mem_filter.mp ((List.mem_mergeSort).mp hm')).1
  rcases lim with _ | n
  · exact hres m h
  · dsimp only at h
    by_cases hn : n = 0
    · rw [if_pos hn] at h
      exact hres m h
    · rw [if_neg hn] at h
      exact hres m (List.mem_of_mem_take h)

/-- Any candidate `inject` considers is a row of the store. -/
theorem mem_of_injectCandidates {store : List Memory} {agent : Agent}
    {project : Option Project} {m : Memory}
    (h : m ∈ injectCandidates store agent project) : m ∈ store := by
  unfold injectCandidates at h
  rcases List.mem_append.mp h with h' | h'
  · exact mem_of_get_memories h'
  · rcases project with _ | p
    · cases h'
    · exact mem_of_get_memories h'

/-- Structure of the greedy packing loop: it returns a prefix of the
(marked) candidate list, every inclusion keeps the running total within
budget, and when it stops early the next candidate would have exceeded the
budget. -/
theorem pack_spec (hmacFn : String → String → String) (agent : Agent)
    (budget : Nat) (ms : List Memory) (cur : Nat) :
    ∃ k, k ≤ ms.length ∧
      packMemories hmacFn agent budget cur ms
        = (ms.map (verifyAndMark hmacFn agent)).take k ∧
      (packMemories hmacFn agent budget cur ms ≠ [] →
        cur + ((packMemories hmacFn agent budget cur ms).map
          get_memory_tokens).sum ≤ budget) ∧
      (∀ hk : k < ms.length,
        cur + ((packMemories hmacFn agent budget cur ms).map
            get_memory_tokens).sum
          + get_memory_tokens (verifyAndMark hmacFn agent (ms.get ⟨k, hk⟩))
          > budget) := by
  induction ms generalizing cur with
  | nil =>
    refine ⟨0, Nat.le_refl 0, by simp [packMemories], by simp [packMemories], ?_⟩
    intro hk
    exact absurd hk (by simp)
  | cons m rest ih =>
    by_cases hfit :
        cur + get_memory_tokens (verifyAndMark hmacFn agent m) ≤ budget
    · obtain ⟨k', hk'len, heq', hbud', hmax'⟩ :=
        ih (cur + get_memory_tokens (verifyAndMark hmacFn agent m))
      have hunfold : packMemories hmacFn agent budget cur (m :: rest)
          = verifyAndMark hmacFn agent m ::
            packMemories hmacFn agent budget
              (cur + get_memory_tokens (verifyAndMark hmacFn agent m)) rest := by
        simp only [packMemories, hfit, if_pos]
      refine ⟨k' + 1, Nat.succ_le_succ hk'len, ?_, ?_, ?_⟩
      · rw [hunfold, heq']
        simp [List.take_succ_cons]
      · intro _
        rw [hunfold]
        simp only [List.map_cons, List.sum_cons]
        by_cases hr : packMemories hmacFn agent budget
            (cur + get_memory_tokens (verifyAndMark hmacFn agent m)) rest = []
        · rw [hr]
          simpa using hfit
        · have := hbud' hr
          omega
      · intro hk
        have hk' : k' < rest.length := by
          simpa [Nat.succ_lt_succ_iff] using hk
        have := hmax' hk'
        rw [hunfold]
        simp only [List.map_cons, List.sum_cons, List.get]
        omega
    · have hunfold : packMemories hmacFn agent budget cur (m :: rest) = [] := by
        simp only [packMemories, hfit, if_neg]
        simp [hfit]
      refine ⟨0, Nat.zero_le _, by rw [hunfold]; simp, by intro h; exact absurd hunfold h, ?_⟩
      intro hk
      rw [hunfold]
      simp only [List.map_nil, List.sum_nil, List.get]
      omega

end LTM

namespace LTM

/-- The decay threshold, in seconds, that the spec assigns to each
non-CRITICAL impact level under default config (LOW one day, MEDIUM seven
days, HIGH thirty days).  The CRITICAL value is irrelevant: the claims
only consult it under an `impact ≠ CRITICAL` guard. -/
def specDefaultThreshold : ImpactLevel → Int
  | .LOW => 1 * secondsPerDay
  | .MEDIUM => 7 * secondsPerDay
  | .HIGH => 30 * secondsPerDay
  | .CRITICAL => 0

end LTM

open LTM

/-- **C1**: under the default configuration, `should_compact(m, now)` is true
iff `m.impact ≠ CRITICAL` and `now - m.created_at` is strictly greater than
the default decay threshold of `m.impact` (LOW 1 day, MEDIUM 7 days, HIGH 30
days); it is false when the age equals the threshold exactly, and false for a
CRITICAL memory at every age. -/
theorem c1_should_compact_iff (m : Memory) (now : Int) :
    (should_compact defaultDecayConfig m now = true ↔
      m.impact ≠ ImpactLevel.CRITICAL ∧
        now - m.created_at > specDefaultThreshold m.impact) ∧
    (now - m.created_at = specDefaultThreshold m.impact →
      should_compact defaultDecayConfig m now = false) ∧
    (m.impact = ImpactLevel.CRITICAL →
      should_compact defaultDecayConfig m now = false) := by
  refine ⟨?_, ?_, ?_⟩
  · cases h : m.impact <;>
      simp [should_compact, get_decay_thresholds, specDefaultThreshold, h,
        defaultDecayConfig, secondsPerDay]
  · intro heq
    cases h : m.impact <;>
      simp_all [should_compact, get_decay_thresholds, specDefaultThreshold, h,
        defaultDecayConfig, secondsPerDay]
  · intro h
    simp [should_compact, h]

/-- Witness for C1: a LOW memory aged exactly one day does not compact, one
second past a day it does, and a CRITICAL memory a year old never compacts. -/
theorem c1_should_compact_iff_witness :
    should_compact defaultDecayConfig
      { id := "m1", impact := ImpactLevel.LOW, created_at := 0 } 86400 = false ∧
    should_compact defaultDecayConfig
      { id := "m1", impact := ImpactLevel.LOW, created_at := 0 } 86401 = true ∧
    should_compact defaultDecayConfig
      { id := "m2", impact := ImpactLevel.CRITICAL, created_at := 0 }
      (365 * 86400) = false := by
  refine ⟨?_, ?_, ?_⟩
  · exact (c1_should_compact_iff
      { id := "m1", impact := ImpactLevel.LOW, created_at := 0 } 86400).2.1
      (by decide)
  · exact (c1_should_compact_iff
      { id := "m1", impact := ImpactLevel.LOW, created_at := 0 } 86401).1.mpr
      (by refine ⟨by decide, by decide⟩)
  · exact (c1_should_compact_iff
      { id := "m2", impact := ImpactLevel.CRITICAL, created_at := 0 }
      (365 * 86400)).2.2 rfl

/-- **C4**: `get_memories_for_agent(A, project_id=P)` with default arguments
returns exactly the non-superseded memories of `A` whose `project_id` is `P`
or whose region is AGENT (so every AGENT-region memory of `A` is included,
and no PROJECT-region memory of a different project), ordered by
`created_at` descending. -/
theorem c4_visibility_rule (rows : List Memory) (A P : String) (hP : P ≠ "") :
    (∀ m, m ∈ get_memories_for_agent rows A none (some P) ↔
      m ∈ rows ∧ m.agent_id = A ∧ m.superseded_by = none ∧
        (m.project_id = some P ∨ m.region = RegionType.AGENT)) ∧
    (get_memories_for_agent rows A none (some P)).Sorted
      (fun a b => b.created_at ≤ a.created_at) ∧
    (get_memories_for_agent rows A none (some P)).Perm
      (rows.filter (memQueryWhere A none (some P) none false)) ∧
    (∀ m ∈ rows, m.agent_id = A → m.region = RegionType.AGENT →
      m.superseded_by = none → m ∈ get_memories_for_agent rows A none (some P)) ∧
    (∀ m ∈ get_memories_for_agent rows A none (some P),
      m.region = RegionType.PROJECT → m.project_id = some P) := by
  have hmem : ∀ m, m ∈ get_memories_for_agent rows A none (some P) ↔
      m ∈ rows ∧ m.agent_id = A ∧ m.superseded_by = none ∧
        (m.project_id = some P ∨ m.region = RegionType.AGENT) := by
    intro m
    have htr : truthyStr (some P) = true := by simp [truthyStr, hP]
    simp only [get_memories_for_agent, List.mem_mergeSort, List.mem_filter,
      memQueryWhere, htr, if_true, Bool.and_eq_true, Bool.or_eq_true,
      beq_iff_eq, Bool.false_or, and_true, true_and]
    tauto
  refine ⟨hmem, ?_, ?_, ?_, ?_⟩
  · exact List.Pairwise.imp (by intro a b h; simpa [createdDescLe] using h)
      (List.sorted_mergeSort createdDescLe_trans createdDescLe_total _)
  · exact List.mergeSort_perm _ _
  · intro m hm h1 h2 h3
    exact (hmem m).mpr ⟨hm, h1, h3, Or.inr h2⟩
  · intro m hm hproj
    rcases ((hmem m).mp hm).2.2.2 with h | h
    · exact h
    · rw [hproj] at h; cases h

/-- **C3**: `_prioritize_memories` sorts by the total order whose primary key
is impact rank (CRITICAL, HIGH, MEDIUM, LOW), secondary key is kind rank
(EMOTIONAL, ARCHITECTURAL, LEARNINGS, ACHIEVEMENTS), and tertiary key is
`created_at` descending; the result is a permutation of the input, and every
CRITICAL-impact entry precedes every non-CRITICAL entry. -/
theorem c3_priority_ordering (ms : List Memory) :
    (prioritize_memories ms).Perm ms ∧
    (prioritize_memories ms).Sorted (fun a b =>
      impact_order a.impact < impact_order b.impact ∨
      (impact_order a.impact = impact_order b.impact ∧
        (kind_order a.kind < kind_order b.kind ∨
          (kind_order a.kind = kind_order b.kind ∧
            b.created_at ≤ a.created_at)))) ∧
    (impact_order ImpactLevel.CRITICAL < impact_order ImpactLevel.HIGH ∧
      impact_order ImpactLevel.HIGH < impact_order ImpactLevel.MEDIUM ∧
      impact_order ImpactLevel.MEDIUM < impact_order ImpactLevel.LOW) ∧
    (kind_order MemoryKind.EMOTIONAL < kind_order MemoryKind.ARCHITECTURAL ∧
      kind_order MemoryKind.ARCHITECTURAL < kind_order MemoryKind.LEARNINGS ∧
      kind_order MemoryKind.LEARNINGS < kind_order MemoryKind.ACHIEVEMENTS) ∧
    (prioritize_memories ms).Pairwise (fun a b =>
      b.impact = ImpactLevel.CRITICAL → a.impact = ImpactLevel.CRITICAL) := by
  have hs := List.sorted_mergeSort priorityLe_trans priorityLe_total ms
  refine ⟨List.mergeSort_perm ms _, ?_, by decide, by decide, ?_⟩
  · exact hs.imp (fun h => (priorityLe_iff _ _).mp h)
  · refine hs.imp ?_
    intro a b hab hbcrit
    have hiff := (priorityLe_iff a b).mp hab
    have hb : impact_order b.impact = 0 := by rw [hbcrit]; rfl
    have ha : impact_order a.impact = 0 := by omega
    exact (impact_order_eq_zero_iff _).mp ha

/-- Witness for C3 on a concrete mixed list: the prioritized list is a
permutation of the input and lists its CRITICAL entry before any other. -/
theorem c3_priority_ordering_witness :
    (prioritize_memories
      [{ id := "l", impact := ImpactLevel.LOW, created_at := 9 },
       { id := "h-old", impact := ImpactLevel.HIGH, created_at := 1 },
       { id := "c", impact := ImpactLevel.CRITICAL, created_at := 0 },
       { id := "h-new", impact := ImpactLevel.HIGH, created_at := 5 }]).Perm
      [{ id := "l", impact := ImpactLevel.LOW, created_at := 9 },
       { id := "h-old", impact := ImpactLevel.HIGH, created_at := 1 },
       { id := "c", impact := ImpactLevel.CRITICAL, created_at := 0 },
       { id := "h-new", impact := ImpactLevel.HIGH, created_at := 5 }] ∧
    (prioritize_memories
      [{ id := "l", impact := ImpactLevel.LOW, created_at := 9 },
       { id := "h-old", impact := ImpactLevel.HIGH, created_at := 1 },
       { id := "c", impact := ImpactLevel.CRITICAL, created_at := 0 },
       { id := "h-new", impact := ImpactLevel.HIGH, created_at := 5 }]).Pairwise
      (fun a b =>
        b.impact = ImpactLevel.CRITICAL → a.impact = ImpactLevel.CRITICAL) :=
  ⟨(c3_priority_ordering _).1, (c3_priority_ordering _).2.2.2.2⟩

/-- Witness for C4: a store holding an AGENT-region memory, a memory of
project `p1`, a memory of project `p2` and a superseded `p1` memory;
querying agent `a` with `project_id = p1` returns exactly the first two,
newest first. -/
theorem c4_visibility_rule_witness :
    ("p1" : String) ≠ "" ∧
    (∀ m, m ∈ get_memories_for_agent
        [{ id := "m1", agent_id := "a", region := RegionType.AGENT,
           created_at := 10 },
         { id := "m2", agent_id := "a", region := RegionType.PROJECT,
           project_id := some "p1", created_at := 20 },
         { id := "m3", agent_id := "a", region := RegionType.PROJECT,
           project_id := some "p2", created_at := 30 },
         { id := "m4", agent_id := "a", region := RegionType.PROJECT,
           project_id := some "p1", created_at := 40,
           superseded_by := some "m5" }] "a" none (some "p1") ↔
      m ∈ [{ id := "m1", agent_id := "a", region := RegionType.AGENT,
             created_at := 10 },
           { id := "m2", agent_id := "a", region := RegionType.PROJECT,
             project_id := some "p1", created_at := 20 },
           { id := "m3", agent_id := "a", region := RegionType.PROJECT,
             project_id := some "p2", created_at := 30 },
           { id := "m4", agent_id := "a", region := RegionType.PROJECT,
             project_id := some "p1", created_at := 40,
             superseded_by := some "m5" }] ∧
        m.agent_id = "a" ∧ m.superseded_by = none ∧
        (m.project_id = some "p1" ∨ m.region = RegionType.AGENT)) :=
  ⟨by decide, (c4_visibility_rule _ "a" "p1" (by decide)).1⟩

namespace LTM

/-- The greedy-packing/budget contract of `inject` that claim C2 states:
the packed list is a prefix of the prioritized (and signature-marked)
candidates; while anything is packed, every running total (header/footer
overhead plus the token costs of the packed prefix) stays within budget;
packing stops exactly at the first candidate that would exceed the budget,
dropping all later candidates; an empty pack yields the empty output; and
each packed memory's cost is its cached `token_count`. -/
def InjectGreedyBudget (hmacFn : String → String → String)
    (store : List Memory) (budget : Nat) (agent : Agent)
    (project : Option Project) : Prop :=
  ∃ k, k ≤ (injectPrior store agent project).length ∧
    injectPacked hmacFn store budget agent project
      = ((injectPrior store agent project).map
          (verifyAndMark hmacFn agent)).take k ∧
    (injectPacked hmacFn store budget agent project ≠ [] →
      ∀ i, injectOverhead agent
        + (((injectPacked hmacFn store budget agent project).map
            get_memory_tokens).take i).sum ≤ budget) ∧
    (∀ hk : k < (injectPrior store agent project).length,
      injectOverhead agent
        + ((injectPacked hmacFn store budget agent project).map
            get_memory_tokens).sum
        + get_memory_tokens (verifyAndMark hmacFn agent
            ((injectPrior store agent project).get ⟨k, hk⟩)) > budget) ∧
    (injectPacked hmacFn store budget agent project = [] →
      inject hmacFn store budget agent project = "") ∧
    (∀ m ∈ injectPacked hmacFn store budget agent project,
      m.token_count.isSome = true ∧
        get_memory_tokens m = m.token_count.getD 0)

theorem injectPacked_def (hmacFn : String → String → String)
    (store : List Memory) (budget : Nat) (agent : Agent)
    (project : Option Project) :
    injectPacked hmacFn store budget agent project
      = packMemories hmacFn agent budget (injectOverhead agent)
          (injectPrior store agent project) := rfl

end LTM

/-- **C2**: for every agent, optional project and store in which every memory
has a populated `token_count`, `inject` packs the prioritized candidates
greedily: the running total starts at the header/footer overhead, a
candidate is included only while the total stays within budget, packing
stops entirely at the first candidate that would exceed it, and the total
token cost of the returned output never exceeds the budget. -/
theorem c2_inject_greedy_budget (hmacFn : String → String → String)
    (store : List Memory) (budget : Nat) (agent : Agent)
    (project : Option Project)
    (htok : ∀ m ∈ store, m.token_count.isSome = true) :
    InjectGreedyBudget hmacFn store budget agent project := by
  obtain ⟨k, hklen, heq, hbud, hmax⟩ :=
    pack_spec hmacFn agent budget (injectPrior store agent project)
      (injectOverhead agent)
  rw [← injectPacked_def] at heq hbud hmax
  refine ⟨k, hklen, heq, ?_, hmax, ?_, ?_⟩
  · intro hne i
    have h := hbud hne
    have h2 := sum_take_le
      ((injectPacked hmacFn store budget agent project).map get_memory_tokens) i
    omega
  · intro h0
    by_cases hc : (injectCandidates store agent project).isEmpty
    · simp [inject, hc]
    · simp [inject, hc, h0]
  · intro m hm
    rw [heq] at hm
    obtain ⟨m0, hm0, rfl⟩ := List.mem_map.mp (List.mem_of_mem_take hm)
    have hprior : injectPrior store agent project
        = (injectCandidates store agent project).mergeSort priorityLe := rfl
    rw [hprior] at hm0
    have hm0s : m0 ∈ store :=
      mem_of_injectCandidates ((List.mem_mergeSort).mp hm0)
    obtain ⟨n, hn⟩ := Option.isSome_iff_exists.mp (htok m0 hm0s)
    have hmn : (verifyAndMark hmacFn agent m0).token_count = some n := by
      rw [verifyAndMark_token_count]; exact hn
    exact ⟨by simp [hmn], by simp [get_memory_tokens, hmn]⟩

/-- Witness for C2: a two-memory store (costs 50 and 60 tokens, both cached)
against a 100-token budget. -/
theorem c2_inject_greedy_budget_witness :
    (∀ m ∈ [({ id := "m1", agent_id := "a", region := RegionType.AGENT,
                created_at := 2, token_count := some 50 } : Memory),
             { id := "m2", agent_id := "a", region := RegionType.AGENT,
                created_at := 1, token_count := some 60 }],
      m.token_count.isSome = true) ∧
    InjectGreedyBudget (fun _ p => p)
      [{ id := "m1", agent_id := "a", region := RegionType.AGENT,
          created_at := 2, token_count := some 50 },
       { id := "m2", agent_id := "a", region := RegionType.AGENT,
          created_at := 1, token_count := some 60 }]
      100 { id := "a", name := "A" } none :=
  ⟨by decide,
   c2_inject_greedy_budget (fun _ p => p) _ 100 { id := "a", name := "A" }
     none (by decide)⟩

/-- **C5**: after signing a memory with key `k`, verification still succeeds
when only the mutable `content` is changed (the canonical payload — the
`"|"`-join of id, agent_id, region, project_id-or-empty, kind,
`original_content`, impact, created_at — does not mention `content`), and a
single mutation of `original_content`, `id`, `kind` or `impact` changes the
payload, so verification fails whenever the HMAC separates the two distinct
payloads (collision-freeness of HMAC-SHA256 at the relevant points is the
sole cryptographic hypothesis, `hmacFn` being the embedding's stand-in for
`hmac.new(...).hexdigest()`); likewise verification with a key whose HMAC
of the payload differs fails. -/
theorem c5_signature_stability_and_sensitivity
    (hmacFn : String → String → String) (m : Memory) (k : String) :
    (sign_memory hmacFn m k ≠ "" →
      ∀ c, verify_signature hmacFn
        { m with signature := some (sign_memory hmacFn m k), content := c } k
        = true) ∧
    (∀ c, get_signing_payload { m with content := c }
      = get_signing_payload m) ∧
    (∀ oc, oc ≠ m.original_content →
      get_signing_payload
          { m with
            signature := some (sign_memory hmacFn m k),
            original_content := oc }
        ≠ get_signing_payload m ∧
      (hmacFn k (get_signing_payload
            { m with
              signature := some (sign_memory hmacFn m k),
              original_content := oc })
          ≠ hmacFn k (get_signing_payload m) →
        verify_signature hmacFn
          { m with
            signature := some (sign_memory hmacFn m k),
            original_content := oc } k = false)) ∧
    (∀ i, i ≠ m.id →
      get_signing_payload
          { m with signature := some (sign_memory hmacFn m k), id := i }
        ≠ get_signing_payload m ∧
      (hmacFn k (get_signing_payload
            { m with signature := some (sign_memory hmacFn m k), id := i })
          ≠ hmacFn k (get_signing_payload m) →
        verify_signature hmacFn
          { m with signature := some (sign_memory hmacFn m k), id := i } k
          = false)) ∧
    (∀ kd, kd ≠ m.kind →
      get_signing_payload
          { m with signature := some (sign_memory hmacFn m k), kind := kd }
        ≠ get_signing_payload m ∧
      (hmacFn k (get_signing_payload
            { m with signature := some (sign_memory hmacFn m k), kind := kd })
          ≠ hmacFn k (get_signing_payload m) →
        verify_signature hmacFn
          { m with signature := some (sign_memory hmacFn m k), kind := kd } k
          = false)) ∧
    (∀ im, im ≠ m.impact →
      get_signing_payload
          { m with signature := some (sign_memory hmacFn m k), impact := im }
        ≠ get_signing_payload m ∧
      (hmacFn k (get_signing_payload
            { m with signature := some (sign_memory hmacFn m k), impact := im })
          ≠ hmacFn k (get_signing_payload m) →
        verify_signature hmacFn
          { m with signature := some (sign_memory hmacFn m k), impact := im } k
          = false)) ∧
    (∀ k2, hmacFn k2 (get_signing_payload m) ≠ hmacFn k (get_signing_payload m) →
      verify_signature hmacFn
        { m with signature := some (sign_memory hmacFn m k) } k2 = false) := by
  refine ⟨?_, ?_, ?_, ?_, ?_, ?_, ?_⟩
  · intro hne c
    exact verify_true_of_hash_eq hmacFn _ k (sign_memory hmacFn m k) rfl hne rfl
  · intro c
    rfl
  · intro oc hoc
    constructor
    · intro h
      exact hoc (joinBar8_cancel6 _ _ _ _ _ _ _ _ _ h)
    · intro hhash
      exact verify_false_of_hash_ne hmacFn _ k (sign_memory hmacFn m k) rfl
        (fun h => hhash (h.symm))
  · intro i hi
    constructor
    · intro h
      exact hi (joinBar8_cancel1 _ _ _ _ _ _ _ _ _ h)
    · intro hhash
      exact verify_false_of_hash_ne hmacFn _ k (sign_memory hmacFn m k) rfl
        (fun h => hhash (h.symm))
  · intro kd hkd
    constructor
    · intro h
      exact hkd (kind_value_injective _ _ (joinBar8_cancel5 _ _ _ _ _ _ _ _ _ h))
    · intro hhash
      exact verify_false_of_hash_ne hmacFn _ k (sign_memory hmacFn m k) rfl
        (fun h => hhash (h.symm))
  · intro im him
    constructor
    · intro h
      exact him (impact_value_injective _ _ (joinBar8_cancel7 _ _ _ _ _ _ _ _ _ h))
    · intro hhash
      exact verify_false_of_hash_ne hmacFn _ k (sign_memory hmacFn m k) rfl
        (fun h => hhash (h.symm))
  · intro k2 hk2
    exact verify_false_of_hash_ne hmacFn _ k2 (sign_memory hmacFn m k) rfl
      (fun h => hk2 (h.symm))

/-- Witness for C5 with an injective concrete stand-in for the HMAC:
content mutation keeps verification succeeding; mutating
`original_content` or using a different key makes it fail. -/
theorem c5_signature_stability_and_sensitivity_witness :
    verify_signature (fun key p => "h:" ++ key ++ ":" ++ p)
      { id := "m1", agent_id := "a", original_content := "orig",
        created_at := 5, content := "compacted",
        signature := some (sign_memory (fun key p => "h:" ++ key ++ ":" ++ p)
          { id := "m1", agent_id := "a", original_content := "orig",
            created_at := 5 } "key") } "key" = true ∧
    verify_signature (fun key p => "h:" ++ key ++ ":" ++ p)
      { id := "m1", agent_id := "a", original_content := "evil",
        created_at := 5,
        signature := some (sign_memory (fun key p => "h:" ++ key ++ ":" ++ p)
          { id := "m1", agent_id := "a", original_content := "orig",
            created_at := 5 } "key") } "key" = false ∧
    verify_signature (fun key p => "h:" ++ key ++ ":" ++ p)
      { id := "m1", agent_id := "a", original_content := "orig",
        created_at := 5,
        signature := some (sign_memory (fun key p => "h:" ++ key ++ ":" ++ p)
          { id := "m1", agent_id := "a", original_content := "orig",
            created_at := 5 } "key") } "other" = false := by
  have h := c5_signature_stability_and_sensitivity
    (fun key p => "h:" ++ key ++ ":" ++ p)
    { id := "m1", agent_id := "a", original_content := "orig",
      created_at := 5 } "key"
  refine ⟨?_, ?_, ?_⟩
  · exact h.1 (by decide) "compacted"
  · exact (h.2.2.1 "evil" (by decide)).2 (by decide)
  · exact h.2.2.2.2.2.2 "other" (by decide)


/-- **C7**: `save_memory` of a memory whose id already exists never raises
`LimitExceeded` (the upsert happens even with counts at or above every
ceiling); for a new id it raises exactly when one of the configured
ceilings (agent total, per-project when the memory carries a truthy
project id, per-kind) has been reached by the relevant current count, and
the raised error carries the violated ceiling's kind, the current count and
the configured limit; an error means the table is not rewritten. -/
theorem c7_limit_enforcement (limits : MemoryLimits) (rows : List Memory)
    (memory : Memory) :
    ((get_memory rows memory.id).isSome = true →
      save_memory limits rows memory = Except.ok (upsertRows rows memory)) ∧
    ((get_memory rows memory.id).isSome = false →
      ((∃ e, save_memory limits rows memory = Except.error e) ↔
        (∃ l, limits.max_memories_per_agent = some l ∧
          count_memories rows memory.agent_id none ≥ l) ∨
        (∃ l, limits.max_memories_per_project = some l ∧
          truthyStr memory.project_id = true ∧
          count_memories rows memory.agent_id memory.project_id ≥ l) ∨
        (∃ l, limits.max_memories_per_kind = some l ∧
          count_memories_by_kind rows memory.agent_id memory.kind
            memory.project_id ≥ l))) ∧
    (∀ e, save_memory limits rows memory = Except.error e →
      (e.limit_type = "agent total" ∧
        e.current = count_memories rows memory.agent_id none ∧
        limits.max_memories_per_agent = some e.limit ∧
        e.current ≥ e.limit) ∨
      (e.limit_type = "project " ++ pyQuote (memory.project_id.getD "") ∧
        e.current = count_memories rows memory.agent_id memory.project_id ∧
        limits.max_memories_per_project = some e.limit ∧
        e.current ≥ e.limit) ∨
      (e.limit_type = "kind " ++ pyQuote memory.kind.value ∧
        e.current = count_memories_by_kind rows memory.agent_id memory.kind
          memory.project_id ∧
        limits.max_memories_per_kind = some e.limit ∧
        e.current ≥ e.limit)) := by
  refine ⟨?_, ?_, ?_⟩
  · intro h
    simp [save_memory, check_limits, h]
  · intro hnew
    have hch : check_limits limits rows memory
        = (match agentViolation limits rows memory with
           | some e => some e
           | none =>
             match projectViolation limits rows memory with
             | some e => some e
             | none => kindViolation limits rows memory) := by
      simp [check_limits, hnew]
    constructor
    · rintro ⟨e, he⟩
      have hce := save_memory_error_check limits rows memory e he
      rw [hch] at hce
      cases ha : agentViolation limits rows memory with
      | some ea =>
        exact Or.inl ((agentViolation_isSome_iff limits rows memory).mp
          (by rw [ha]; rfl))
      | none =>
        simp only [ha] at hce
        cases hp : projectViolation limits rows memory with
        | some ep =>
          exact Or.inr (Or.inl
            ((projectViolation_isSome_iff limits rows memory).mp
              (by rw [hp]; rfl)))
        | none =>
          simp only [hp] at hce
          exact Or.inr (Or.inr
            ((kindViolation_isSome_iff limits rows memory).mp
              (by rw [hce]; rfl)))
    · intro hdisj
      have hsome : (check_limits limits rows memory).isSome = true := by
        rw [hch]
        cases ha : agentViolation limits rows memory with
        | some ea => rfl
        | none =>
          cases hp : projectViolation limits rows memory with
          | some ep => rfl
          | none =>
            rcases hdisj with h | h | h
            · have := (agentViolation_isSome_iff limits rows memory).mpr h
              rw [ha] at this
              cases this
            · have := (projectViolation_isSome_iff limits rows memory).mpr h
              rw [hp] at this
              cases this
            · exact (kindViolation_isSome_iff limits rows memory).mpr h
      obtain ⟨e, he⟩ := Option.isSome_iff_exists.mp hsome
      exact ⟨e, by simp [save_memory, he]⟩
  · intro e he
    have hce := save_memory_error_check limits rows memory e he
    have hnew : (get_memory rows memory.id).isSome = false := by
      by_contra hcontra
      have h1 : (get_memory rows memory.id).isSome = true := by
        cases h2 : (get_memory rows memory.id).isSome
        · exact absurd h2 hcontra
        · rfl
      simp [check_limits, h1] at hce
    rw [show check_limits limits rows memory
        = (match agentViolation limits rows memory with
           | some e => some e
           | none =>
             match projectViolation limits rows memory with
             | some e => some e
             | none => kindViolation limits rows memory) from by
      simp [check_limits, hnew]] at hce
    cases ha : agentViolation limits rows memory with
    | some ea =>
      simp only [ha] at hce
      cases Option.some.inj hce
      exact Or.inl (agentViolation_eq limits rows memory _ ha)
    | none =>
      simp only [ha] at hce
      cases hp : projectViolation limits rows memory with
      | some ep =>
        simp only [hp] at hce
        cases Option.some.inj hce
        exact Or.inr (Or.inl (projectViolation_eq limits rows memory _ hp))
      | none =>
        simp only [hp] at hce
        exact Or.inr (Or.inr (kindViolation_eq limits rows memory _ hce))

/-- Witness for C7: with a per-agent ceiling of 1 and one stored memory,
saving a second, new id raises, while re-saving the existing id at the
ceiling succeeds. -/
theorem c7_limit_enforcement_witness :
    (get_memory [{ id := "m1", agent_id := "a" }] "m2").isSome = false ∧
    (∃ e, save_memory { max_memories_per_agent := some 1 }
      [{ id := "m1", agent_id := "a" }] { id := "m2", agent_id := "a" }
        = Except.error e) ∧
    save_memory { max_memories_per_agent := some 1 }
      [{ id := "m1", agent_id := "a" }]
      { id := "m1", agent_id := "a", content := "updated" }
      = Except.ok (upsertRows [{ id := "m1", agent_id := "a" }]
          { id := "m1", agent_id := "a", content := "updated" }) := by
  refine ⟨by decide, ?_, ?_⟩
  · exact ((c7_limit_enforcement { max_memories_per_agent := some 1 }
      [{ id := "m1", agent_id := "a" }]
      { id := "m2", agent_id := "a" }).2.1 (by decide)).mpr
      (Or.inl ⟨1, rfl, by decide⟩)
  · exact (c7_limit_enforcement { max_memories_per_agent := some 1 }
      [{ id := "m1", agent_id := "a" }]
      { id := "m1", agent_id := "a", content := "updated" }).1 (by decide)

namespace LTM

/-- Concrete store for exercising `search_memories` escaping. -/
def exampleSearchRows : List Memory :=
  [{ id := "s1", agent_id := "a", content := "Progress: 100% done",
     original_content := "Progress: 100% done", created_at := 1 },
   { id := "s2", agent_id := "a", content := "Progress: 100 done",
     original_content := "Progress: 100 done", created_at := 2 },
   { id := "s3", agent_id := "a", content := "use snake_case here",
     original_content := "use snake_case here", created_at := 3 },
   { id := "s4", agent_id := "a", content := "use snakeXcase here",
     original_content := "use snakeXcase here", created_at := 4 }]

end LTM

/-- **C8**: a memory is returned by `search_memories` exactly when it
belongs to the agent, is not superseded, and its `content` or
`original_content` contains the query as a literal case-insensitive
substring; the escaping of `\`, `%` and `_` makes the LIKE pattern match
precisely that containment relation, so wildcard characters in the query
match only themselves.  (The hypothesis bounds the match count by the LIMIT
the code always applies, default 10.) -/
theorem c8_search_escaping (rows : List Memory) (A q : String) (m : Memory)
    (hlen : (rows.filter (searchWhere A q none)).length ≤ 10) :
    (m ∈ search_memories rows A q none 10 ↔
      m ∈ rows ∧ m.agent_id = A ∧ m.superseded_by = none ∧
        (ContainsCI q.data m.content.data ∨
          ContainsCI q.data m.original_content.data)) ∧
    (∀ s : List Char,
      likeMatch ('%' :: (escape_like_pattern q.data ++ ['%'])) s
        = substrCI q.data s) := by
  refine ⟨?_, fun s => like_escape_substr q.data s⟩
  unfold search_memories
  have hlen2 : ((rows.filter (searchWhere A q none)).mergeSort
      createdDescLe).length ≤ 10 := by
    rw [(List.mergeSort_perm (rows.filter (searchWhere A q none))
      createdDescLe).length_eq]
    exact hlen
  rw [List.take_of_length_le hlen2, List.mem_mergeSort, List.mem_filter]
  have hw : searchWhere A q none m = true ↔
      (m.agent_id = A ∧ m.superseded_by = none ∧
        (ContainsCI q.data m.content.data ∨
          ContainsCI q.data m.original_content.data)) := by
    simp only [searchWhere, truthyStr, Bool.and_eq_true, Bool.or_eq_true,
      beq_iff_eq, like_escape_substr, substrCI_iff]
    simp
    tauto
  rw [hw]

/-- Witness for C8 on a concrete store: searching for `100%` returns the
memory containing the literal `100%` and not the one containing only
`100`, and searching for `snake_case` does not return `snakeXcase`. -/
theorem c8_search_escaping_witness :
    (exampleSearchRows.filter (searchWhere "a" "100%" none)).length ≤ 10 ∧
    ({ id := "s1", agent_id := "a", content := "Progress: 100% done",
       original_content := "Progress: 100% done", created_at := 1 } : Memory)
      ∈ search_memories exampleSearchRows "a" "100%" none 10 ∧
    ({ id := "s2", agent_id := "a", content := "Progress: 100 done",
       original_content := "Progress: 100 done", created_at := 2 } : Memory)
      ∉ search_memories exampleSearchRows "a" "100%" none 10 ∧
    ({ id := "s4", agent_id := "a", content := "use snakeXcase here",
       original_content := "use snakeXcase here", created_at := 4 } : Memory)
      ∉ search_memories exampleSearchRows "a" "snake_case" none 10 := by
  refine ⟨by decide, ?_, ?_, ?_⟩
  · exact (c8_search_escaping exampleSearchRows "a" "100%"
      { id := "s1", agent_id := "a", content := "Progress: 100% done",
        original_content := "Progress: 100% done", created_at := 1 }
      (by decide)).1.mpr
      ⟨by decide, rfl, rfl,
        Or.inl ⟨"Progress: ".data, "100%".data, " done".data, by decide, rfl⟩⟩
  · intro hmem
    have h := (c8_search_escaping exampleSearchRows "a" "100%"
      { id := "s2", agent_id := "a", content := "Progress: 100 done",
        original_content := "Progress: 100 done", created_at := 2 }
      (by decide)).1.mp hmem
    rcases h.2.2.2 with hc | hc
    · exact absurd ((substrCI_iff "100%".data "Progress: 100 done".data).mpr hc)
        (by decide)
    · exact absurd ((substrCI_iff "100%".data "Progress: 100 done".data).mpr hc)
        (by decide)
  · intro hmem
    have h := (c8_search_escaping exampleSearchRows "a" "snake_case"
      { id := "s4", agent_id := "a", content := "use snakeXcase here",
        original_content := "use snakeXcase here", created_at := 4 }
      (by decide)).1.mp hmem
    rcases h.2.2.2 with hc | hc
    · exact absurd
        ((substrCI_iff "snake_case".data "use snakeXcase here".data).mpr hc)
        (by decide)
    · exact absurd
        ((substrCI_iff "snake_case".data "use snakeXcase here".data).mpr hc)
        (by decide)

namespace LTM

/-! ### Projects: `save_project` / `get_project_by_path`

Modelled from the spec: `schema.sql` is not under the source tree; per the
spec's persisted-entities section the `projects` table carries a uniqueness
constraint on `path` independent of `id`.  The `save_project` statement
itself is taken from the source: `INSERT ... ON CONFLICT(id) DO UPDATE SET
name = excluded.name, path = excluded.path` — only an `id` conflict is
handled, so a `path`-unique violation aborts the statement, which the
embedding renders as `Except.error`. -/

/-- `MemoryStore.save_project`.  `now` stands for
`datetime.now().isoformat()`. -/
def save_project (rows : List Project) (project : Project) (now : String) :
    Except String (List Project) :=
  if rows.any (fun r => r.id == project.id) then
    if rows.any (fun r => r.id != project.id && r.path == project.path) then
      Except.error "UNIQUE constraint failed: projects.path"
    else
      Except.ok (rows.map (fun r =>
        if r.id == project.id then
          { r with name := project.name, path := project.path }
        else r))
  else
    if rows.any (fun r => r.path == project.path) then
      Except.error "UNIQUE constraint failed: projects.path"
    else
      Except.ok (rows ++
        [{ project with
            created_at := some (if truthyStr project.created_at then
              project.created_at.getD "" else now) }])

/-- `MemoryStore.get_project_by_path`. -/
def get_project_by_path (rows : List Project) (path : String) :
    Option Project :=
  rows.find? (fun r => r.path == path)

/-! ### `update_confidence` -/

/-- `MemoryStore.update_confidence`: `UPDATE memories SET confidence = ?
WHERE id = ?` — the given value is stored as-is, with no clamping or
validation. -/
def update_confidence (rows : List Memory) (memory_id : String)
    (confidence : Rat) : List Memory :=
  rows.map (fun m =>
    if m.id == memory_id then { m with confidence := confidence } else m)

end LTM

/-- **C6 (code evaluated at the failing input)**: the repository's own
regression test `test_save_project_with_path_conflict` saves project
`("ltm", "LTM Seeds")` at a path and then `("project-path", "Project
Path")` at the same path and expects reconciliation (no error, id kept,
name updated); the `save_project` in the source handles only `ON
CONFLICT(id)`, so the second save hits the path-uniqueness constraint and
raises instead. -/
theorem c6_path_conflict_raises :
    (do
      let s1 ← save_project []
        { id := "ltm", name := "LTM Seeds", path := "/some/project/path" } "t0"
      save_project s1
        { id := "project-path", name := "Project Path",
          path := "/some/project/path" } "t1")
      = (Except.error "UNIQUE constraint failed: projects.path" :
          Except String (List Project)) := by
  rfl

/-- **C9 counterexample**: `update_confidence` stores the given value
unvalidated — updating to `3/2` leaves a stored memory with confidence
above 1, so the claimed invariant is not preserved by every storage
operation. -/
theorem c9_update_confidence_unclamped :
    (update_confidence [{ id := "m1", agent_id := "a" }] "m1"
        ((3 : Rat) / 2)).map Memory.confidence = [(3 : Rat) / 2] ∧
      ¬((3 : Rat) / 2 ≤ 1) := by
  constructor
  · rfl
  · norm_num

/-- **C9 (amended)**: a memory's confidence defaults to 1.0 (within
`[0,1]`), and `update_confidence` preserves the `[0,1]` invariant whenever
the value it is given lies in `[0,1]` — the operation itself performs no
clamping, so the invariant is conditional on the caller. -/
theorem c9_confidence_default_and_range (rows : List Memory) (id0 : String)
    (c : Rat) (hc : 0 ≤ c ∧ c ≤ 1)
    (hall : ∀ m ∈ rows, 0 ≤ m.confidence ∧ m.confidence ≤ 1) :
    ({ id := id0 } : Memory).confidence = 1 ∧
    (∀ m ∈ update_confidence rows id0 c,
      0 ≤ m.confidence ∧ m.confidence ≤ 1) := by
  refine ⟨rfl, ?_⟩
  intro m hm
  unfold update_confidence at hm
  obtain ⟨m0, hm0, heq⟩ := List.mem_map.mp hm
  by_cases h : m0.id == id0
  · rw [if_pos h] at heq
    rw [← heq]
    exact hc
  · rw [if_neg h] at heq
    rw [← heq]
    exact hall m0 hm0

/-- Witness for the amended C9. -/
theorem c9_confidence_default_and_range_witness :
    (0 ≤ (1 : Rat) / 2 ∧ (1 : Rat) / 2 ≤ 1) ∧
    (({ id := "m1" } : Memory).confidence = 1 ∧
      ∀ m ∈ update_confidence [{ id := "m1", agent_id := "a" }] "m1"
        ((1 : Rat) / 2), 0 ≤ m.confidence ∧ m.confidence ≤ 1) :=
  ⟨by constructor <;> norm_num,
   c9_confidence_default_and_range [{ id := "m1", agent_id := "a" }] "m1"
     ((1 : Rat) / 2) (by constructor <;> norm_num)
     (by intro m hm; simp at hm; rw [hm]; norm_num)⟩

namespace LTM

/-! ### Configuration loading (`ltm.core.config`)

JSON values are embedded as `JValue` (Python floats as rationals).  The
Python operations `from_dict` performs — `key in data`, `data[key]`,
`float(...)`, `int(...)` — are embedded with their raising behaviour:
`Except.error` models the uncaught `TypeError`/`ValueError`, while
`LTMConfig.load` catches only a missing file, an unreadable file
(`IOError`) and invalid JSON (`JSONDecodeError`). -/

/-- A parsed JSON value (plus Python scalars produced by `json.load`). -/
inductive JValue
  | jnull
  | jbool (b : Bool)
  | jint (n : Int)
  | jfloat (q : Rat)
  | jstr (s : String)
  | jarr (xs : List JValue)
  | jobj (fields : List (String × JValue))

/-- Dict lookup by key. -/
def jlookup (fields : List (String × JValue)) (key : String) : Option JValue :=
  (fields.find? (fun kv => kv.1 == key)).map (fun kv => kv.2)

/-- Case-sensitive `startsWith` on characters. -/
def startsWithCS : List Char → List Char → Bool
  | [], _ => true
  | _ :: _, [] => false
  | q :: qs, c :: s => (c == q) && startsWithCS qs s

/-- Case-sensitive substring test (Python `key in str`). -/
def substrCS (q : List Char) : List Char → Bool
  | [] => startsWithCS q []
  | c :: s => startsWithCS q (c :: s) || substrCS q s

/-- Python `key in container`: key lookup on a dict, membership on a list,
substring on a string; a `TypeError` on anything else. -/
def pyContains (container : JValue) (key : String) : Except String Bool :=
  match container with
  | .jobj fields => .ok (jlookup fields key).isSome
  | .jarr xs => .ok (xs.any (fun v =>
      match v with
      | .jstr s => s == key
      | _ => false))
  | .jstr s => .ok (substrCS key.data s.data)
  | _ => .error "TypeError: argument of type is not iterable"

/-- Python `container[key]` with a string key. -/
def pySubscript (container : JValue) (key : String) : Except String JValue :=
  match container with
  | .jobj fields =>
    match jlookup fields key with
    | some v => .ok v
    | none => .error "KeyError"
  | _ => .error "TypeError: not subscriptable by str"

/-- Numeric value of a digit character. -/
def digitVal (c : Char) : Option Nat :=
  if '0' ≤ c ∧ c ≤ '9' then some (c.toNat - 48) else none

/-- Parse a non-empty all-digit string. -/
def parseDigits : List Char → Option Nat
  | [] => none
  | cs => cs.foldl (fun acc c =>
      match acc, digitVal c with
      | some a, some d => some (a * 10 + d)
      | _, _ => none) (some 0)

/-- Python `int(str)`: optional sign then digits. -/
def parseIntStr (s : String) : Option Int :=
  match s.data with
  | '-' :: rest => (parseDigits rest).map (fun n => -(n : Int))
  | '+' :: rest => (parseDigits rest).map (fun n => (n : Int))
  | cs => (parseDigits cs).map (fun n => (n : Int))

/-- Python `float(str)`: optional sign, digits, optional fraction. -/
def parseFloatStr (s : String) : Option Rat :=
  let core : List Char → Option Rat := fun cs =>
    match cs.splitOn '.' with
    | [a] => (parseDigits a).map (fun n => (n : Rat))
    | [a, b] =>
      match parseDigits a, parseDigits b with
      | some n, some f => some ((n : Rat) + (f : Rat) / ((10 : Rat) ^ b.length))
      | _, _ => none
    | _ => none
  match s.data with
  | '-' :: rest => (core rest).map (fun q => -q)
  | '+' :: rest => core rest
  | cs => core cs

/-- Truncation toward zero, as Python `int(float)`. -/
def ratTrunc (q : Rat) : Int :=
  q.num.tdiv (q.den : Int)

/-- Python `float(value)`. -/
def pyFloat (v : JValue) : Except String Rat :=
  match v with
  | .jint n => .ok (n : Rat)
  | .jfloat q => .ok q
  | .jbool b => .ok (if b then 1 else 0)
  | .jstr s =>
    match parseFloatStr s with
    | some q => .ok q
    | none => .error "ValueError: could not convert string to float"
  | _ => .error "TypeError: float() argument"

/-- Python `int(value)`. -/
def pyInt (v : JValue) : Except String Int :=
  match v with
  | .jint n => .ok n
  | .jfloat q => .ok (ratTrunc q)
  | .jbool b => .ok (if b then 1 else 0)
  | .jstr s =>
    match parseIntStr s with
    | some n => .ok n
    | none => .error "ValueError: invalid literal for int() with base 10"
  | _ => .error "TypeError: int() argument"

/-- `ltm.core.config.AgentConfig`.  The `id`/`name`/`signing_key`
assignments in `from_dict` store the raw JSON value without conversion, so
the fields hold `JValue`s. -/
structure AgentConfig where
  id : JValue := .jstr "anima"
  name : JValue := .jstr "Anima"
  signing_key : JValue := .jnull

/-- `ltm.core.config.BudgetConfig`. -/
structure BudgetConfig where
  context_percent : Rat := (10 : Rat) / 100
  context_size : Int := 200000

/-- `ltm.core.config.LTMConfig`. -/
structure LTMConfig where
  agent : AgentConfig := {}
  budget : BudgetConfig := {}
  decay : DecayConfig := {}

/-- `LTMConfig.from_dict`: start from defaults and overwrite each present
field; the `float`/`int` conversions and the `in`/`[]` accesses raise as in
Python. -/
def LTMConfig.from_dict (data : JValue) : Except String LTMConfig := do
  let config0 : LTMConfig := {}
  let hasAgent ← pyContains data "agent"
  let config1 ←
    if hasAgent then do
      let agent_data ← pySubscript data "agent"
      let hasId ← pyContains agent_data "id"
      let c ←
        if hasId then do
          let v ← pySubscript agent_data "id"
          pure { config0 with agent := { config0.agent with id := v } }
        else pure config0
      let hasName ← pyContains agent_data "name"
      let c ←
        if hasName then do
          let v ← pySubscript agent_data "name"
          pure { c with agent := { c.agent with name := v } }
        else pure c
      let hasKey ← pyContains agent_data "signing_key"
      if hasKey then do
        let v ← pySubscript agent_data "signing_key"
        pure { c with agent := { c.agent with signing_key := v } }
      else pure c
    else pure config0
  let hasBudget ← pyContains data "budget"
  let config2 ←
    if hasBudget then do
      let budget_data ← pySubscript data "budget"
      let hasPct ← pyContains budget_data "context_percent"
      let c ←
        if hasPct then do
          let v ← pySubscript budget_data "context_percent"
          let f ← pyFloat v
          pure { config1 with budget := { config1.budget with context_percent := f } }
        else pure config1
      let hasSize ← pyContains budget_data "context_size"
      if hasSize then do
        let v ← pySubscript budget_data "context_size"
        let n ← pyInt v
        pure { c with budget := { c.budget with context_size := n } }
      else pure c
    else pure config1
  let hasDecay ← pyContains data "decay"
  if hasDecay then do
    let decay_data ← pySubscript data "decay"
    let hasLow ← pyContains decay_data "low_days"
    let c ←
      if hasLow then do
        let v ← pySubscript decay_data "low_days"
        let n ← pyInt v
        pure { config2 with decay := { config2.decay with low_days := n } }
      else pure config2
    let hasMed ← pyContains decay_data "medium_days"
    let c ←
      if hasMed then do
        let v ← pySubscript decay_data "medium_days"
        let n ← pyInt v
        pure { c with decay := { c.decay with medium_days := n } }
      else pure c
    let hasHigh ← pyContains decay_data "high_days"
    if hasHigh then do
      let v ← pySubscript decay_data "high_days"
      let n ← pyInt v
      pure { c with decay := { c.decay with high_days := n } }
    else pure c
  else pure config2

/-- The states a configuration file can be in when `LTMConfig.load` reads
it. -/
inductive ConfigFile
  | missing
  | unreadable
  | invalidJson
  | parsed (data : JValue)

/-- `LTMConfig.load`: a missing file, an `IOError` and a `JSONDecodeError`
all yield the pure defaults; parsed JSON goes through `from_dict`, whose
conversion errors are not caught. -/
def LTMConfig.load : ConfigFile → Except String LTMConfig
  | .missing => .ok {}
  | .unreadable => .ok {}
  | .invalidJson => .ok {}
  | .parsed data => LTMConfig.from_dict data

end LTM

/-- **C10 counterexample**: valid JSON with a wrongly-typed field —
`{"budget": {"context_size": "abc"}}` — makes loading raise (`int("abc")`
is a `ValueError` that `load` does not catch), so loading does not succeed
for every configuration file content. -/
theorem c10_load_raises_on_wrong_type :
    (LTMConfig.load (ConfigFile.parsed (JValue.jobj
      [("budget", JValue.jobj [("context_size", JValue.jstr "abc")])]))).isOk
      = false := by
  rfl

/-- **C10 (amended)**: loading never raises for a missing file, an
unreadable file or invalid JSON — each yields the pure defaults (agent
"anima"/"Anima", 200,000-token context with 10% budget fraction, decay
thresholds 1/7/30 days) — and unknown fields in valid JSON are ignored;
but wrongly-typed numeric fields raise. -/
theorem c10_load_defaults :
    LTMConfig.load ConfigFile.missing = Except.ok {} ∧
    LTMConfig.load ConfigFile.unreadable = Except.ok {} ∧
    LTMConfig.load ConfigFile.invalidJson = Except.ok {} ∧
    LTMConfig.from_dict (JValue.jobj []) = Except.ok {} ∧
    LTMConfig.from_dict (JValue.jobj [("unrelated", JValue.jint 5)])
      = Except.ok ({} : LTMConfig) ∧
    ({} : LTMConfig).agent.id = JValue.jstr "anima" ∧
    ({} : LTMConfig).agent.name = JValue.jstr "Anima" ∧
    ({} : LTMConfig).budget.context_size = 200000 ∧
    ({} : LTMConfig).budget.context_percent = (10 : Rat) / 100 ∧
    ({} : LTMConfig).decay.low_days = 1 ∧
    ({} : LTMConfig).decay.medium_days = 7 ∧
    ({} : LTMConfig).decay.high_days = 30 :=
  ⟨rfl, rfl, rfl, rfl, rfl, rfl, rfl, rfl, rfl, rfl, rfl, rfl⟩
